import Mathlib

/-!
Verification development for the market-basket / association-rule mining core
of the digital-library analytics repository.

The shallow embedding below translates `src/utils/pattern_mining.py`
(class `PatternMiner`) and the transaction preparation of
`src/utils/preprocessing.py` (class `DataPreprocessor`) into Lean.
Pandas DataFrames of event records become `List Event`; a basket-matrix row
(one user's binary item-presence vector) becomes a `Finset String`; floating
point support/confidence/lift values are modelled as exact rationals `ℚ`.
Python `None` returns become `Option.none`; a Python exception becomes the
`Except.error` branch and a `try/except` handler becomes a `match` on it.

The third-party mlxtend calls (`apriori`, `fpgrowth`, `association_rules`)
and the networkx `DiGraph.add_edge` semantics are modelled from their
documented input/output behaviour:
  * `apriori` / `fpgrowth` return every nonempty itemset over the item
    universe whose support is at least `min_support` (inclusive comparison),
    and raise a ValueError when `min_support ≤ 0`;
  * `association_rules` enumerates, for every frequent itemset, every
    nonempty proper subset as antecedent with its complement as consequent,
    looks the subset supports up in the frequent-itemset table (a missing
    entry raises KeyError), keeps rules with confidence ≥ min_threshold,
    and raises when the input table is empty;
  * `DiGraph.add_edge` overwrites the attributes of an existing directed
    edge with the newly supplied ones.
-/

namespace DLA

/-- One raw interaction record (a row of the merged library DataFrame);
only the columns consumed by the mining pipeline are modelled. -/
structure Event where
  user_id : String
  title : String
  action_type : String
deriving DecidableEq, Repr

/-- The three categories produced by the `rule_strength` labelling. -/
inductive Strength where
  | weak
  | moderate
  | strong
deriving DecidableEq, Repr

/-- One association rule (a row of the mlxtend `association_rules` output
DataFrame, restricted to the columns this repository consumes). The
`rule_strength` column is added later by `generate_association_rules`, so it
starts out `none`. -/
structure Rule where
  antecedents : Finset String
  consequents : Finset String
  support : ℚ
  confidence : ℚ
  lift : ℚ
  rule_strength : Option Strength := none
deriving DecidableEq

/-- The `borrow_df` selection shared by the mining entry points:
the events whose action type is the borrow tag. -/
def borrowsOf (df : List Event) : List Event :=
  df.filter fun e => e.action_type == "borrow"

/-- The basket the `groupby('user_id')['title'].apply(list)` grouping
assigns to one user: the titles of that user's borrow events in event
order, duplicates included. -/
def basketOf (df : List Event) (u : String) : List String :=
  ((borrowsOf df).filter fun e => e.user_id == u).map (·.title)

/-- `PatternMiner.prepare_transactions` (pattern_mining.py lines 21-44):
filter to borrow events, group titles by user (list semantics — duplicates
are kept), keep users with at least `min_transactions_per_user` borrow
events, return `None` when nothing survives either check. Pandas sorts the
group keys; the claims below only depend on the grouped content, so the
user order is modelled as first-seen. -/
def prepare_transactions (df : List Event) (min_transactions_per_user : Nat := 2) :
    Option (List (List String)) :=
  let borrow_df := borrowsOf df
  if borrow_df.isEmpty then none
  else
    let users := (borrow_df.map (·.user_id)).dedup
    let user_books := users.map (basketOf df)
    let kept := user_books.filter fun b => min_transactions_per_user ≤ b.length
    if kept.isEmpty then none else some kept

/-- `DataPreprocessor.prepare_transaction_data` (preprocessing.py lines
168-182): same grouping without the minimum-size filter; only empty baskets
are dropped. -/
def prepare_transaction_data (df : List Event) (action_filter : String := "borrow") :
    Option (List (List String)) :=
  let tdf := df.filter fun e => e.action_type == action_filter
  if tdf.isEmpty then none
  else
    let users := (tdf.map (·.user_id)).dedup
    let transactions := users.map fun u =>
      (tdf.filter fun e => e.user_id == u).map (·.title)
    some (transactions.filter fun t => !t.isEmpty)

/-- `PatternMiner.create_basket_matrix` (lines 46-56): the mlxtend
`TransactionEncoder` turns each basket into a boolean presence row, i.e.
the set of items occurring in the basket. -/
def create_basket_matrix (transactions : List (List String)) :
    Option (List (Finset String)) :=
  if transactions.isEmpty then none
  else some (transactions.map List.toFinset)

/-- The item universe of a basket matrix: the union of all rows
(the `TransactionEncoder` column set). -/
def itemUniverse (rows : List (Finset String)) : Finset String :=
  rows.foldr (· ∪ ·) ∅

/-- Support of an itemset over a basket matrix: fraction of rows containing
it as a subset (exact rational). -/
def support (rows : List (Finset String)) (S : Finset String) : ℚ :=
  ((rows.countP fun r => decide (S ⊆ r) : Nat) : ℚ) / (rows.length : ℚ)

/-- Enumeration of all subsets of a finite item set as a list, mirroring the
`combinations`-style enumeration the mining library performs over its sorted
column list: every sublist of the sorted element list, read back as a set. -/
def subsetsList (u : Finset String) : List (Finset String) :=
  ((u.sort (· ≤ ·)).sublists).map List.toFinset

/-- mlxtend `apriori`, modelled by its documented input/output behaviour:
raises for `min_support ≤ 0`, otherwise returns every nonempty itemset of
the universe whose support meets the threshold (inclusive), paired with its
exact support. -/
def apriori (rows : List (Finset String)) (min_support : ℚ) :
    Except String (List (Finset String × ℚ)) :=
  if min_support ≤ 0 then
    .error "min_support must be a positive number within the interval (0, 1]"
  else
    .ok (((subsetsList (itemUniverse rows)).filter fun S =>
        decide S.Nonempty && decide (min_support ≤ support rows S)).map
      fun S => (S, support rows S))

/-- mlxtend `fpgrowth`: documented to produce the same set of
(itemset, support) pairs as `apriori` for the same input, including the same
`min_support ≤ 0` validation, so it is modelled by the same function. -/
def fpgrowth (rows : List (Finset String)) (min_support : ℚ) :
    Except String (List (Finset String × ℚ)) :=
  apriori rows min_support

/-- Comparator for `sort_values('support', ascending=False)`. -/
def supportDesc (a b : Finset String × ℚ) : Bool :=
  decide (b.2 ≤ a.2)

/-- `PatternMiner.find_frequent_itemsets` (lines 58-80): `None` for a
missing/empty matrix, dispatch on `method`, catch any library error and
return `None`, `None` for an empty result, else sort by support
descending. -/
def find_frequent_itemsets (df_basket : Option (List (Finset String)))
    (min_support : ℚ) (method : String := "apriori") :
    Option (List (Finset String × ℚ)) :=
  match df_basket with
  | none => none
  | some rows =>
    if rows.isEmpty then none
    else
      match (if method.toLower == "fpgrowth" then fpgrowth rows min_support
             else apriori rows min_support) with
      | .error _ => none
      | .ok fi => if fi.isEmpty then none else some (fi.mergeSort supportDesc)

/-- Support lookup in the frequent-itemset table, as mlxtend's
`frequent_items_dict` access (a missing key raises KeyError). -/
def lookupSupport (fi : List (Finset String × ℚ)) (S : Finset String) : Option ℚ :=
  (fi.find? fun p => decide (p.1 = S)).map (·.2)

/-- The antecedent candidates mlxtend enumerates for one frequent itemset:
every nonempty proper subset (`combinations` of sizes `1 .. len-1`). -/
def antecedentCandidates (k : Finset String) : List (Finset String) :=
  (subsetsList k).filter fun A => decide A.Nonempty && decide (A ≠ k)

/-- One candidate rule for itemset `k` (support `sAC`) with antecedent `A`:
consequent is the complement, confidence `sAC/sA`, lift `confidence/sC`;
a failed support lookup is mlxtend's KeyError. -/
def mkRule (fi : List (Finset String × ℚ)) (k : Finset String) (sAC : ℚ)
    (A : Finset String) : Except String Rule :=
  match lookupSupport fi A, lookupSupport fi (k \ A) with
  | some sA, some sC =>
    .ok { antecedents := A, consequents := k \ A, support := sAC,
          confidence := sAC / sA, lift := sAC / sA / sC }
  | _, _ => .error "KeyError: itemset support not found"

/-- All candidate rules mlxtend derives from a frequent-itemset table,
before any threshold filtering (an empty table raises ValueError). -/
def rulesFrom (fi : List (Finset String × ℚ)) : Except String (List Rule) :=
  if fi.isEmpty then
    .error "The input DataFrame df containing the frequent itemsets is empty"
  else
    (fi.mapM fun e => (antecedentCandidates e.1).mapM (mkRule fi e.1 e.2)).map
      List.flatten

/-- mlxtend `association_rules` with `metric="confidence"`: keep candidate
rules whose confidence is at least `min_threshold` (inclusive; mlxtend
filters during generation, which yields the same list). -/
def association_rules_lib (fi : List (Finset String × ℚ)) (min_threshold : ℚ) :
    Except String (List Rule) :=
  (rulesFrom fi).map fun rs => rs.filter fun r => decide (min_threshold ≤ r.confidence)

/-- Comparator for `sort_values('lift', ascending=False)`. -/
def liftDesc (a b : Rule) : Bool :=
  decide (b.lift ≤ a.lift)

/-- The rule-generation stage of `generate_association_rules`
(lines 100-117): confidence-filtered rules from mlxtend, early return on
emptiness, lift filter (inclusive), then sort by lift descending. -/
def rulesStage (fi : List (Finset String × ℚ)) (min_confidence min_lift : ℚ) :
    Except String (List Rule) :=
  match association_rules_lib fi min_confidence with
  | .error e => .error e
  | .ok rules =>
    if rules.isEmpty then .ok []
    else
      let rules2 := rules.filter fun r => decide (min_lift ≤ r.lift)
      if rules2.isEmpty then .ok [] else .ok (rules2.mergeSort liftDesc)

/-- The `rule_strength` labelling (lines 120-125): `pd.cut` on lift with
`bins=[0, 1.2, 2.0, inf]` and `include_lowest=True`. pandas bins are
right-closed by default, so the intervals are `[0, 1.2]`, `(1.2, 2.0]`,
`(2.0, ∞)`; a value below the first edge falls outside every bin (NaN,
modelled as `none`). -/
def strengthLabel (l : ℚ) : Option Strength :=
  if l < 0 then none
  else if l ≤ 6/5 then some .weak
  else if l ≤ 2 then some .moderate
  else some .strong

/-- Attach the `rule_strength` column to one rule. -/
def addStrength (r : Rule) : Rule :=
  { r with rule_strength := strengthLabel r.lift }

/-- The body of `PatternMiner.generate_association_rules` (lines 82-129)
before its `except` handler: each `None`-producing stage short-circuits to
an empty result; an exception escaping a library call (only the
`association_rules` call is outside any inner handler) is the `error`
branch. -/
def generate_association_rulesE (df : List Event)
    (min_support min_confidence min_lift : ℚ) (method : String := "apriori") :
    Except String (List Rule) :=
  match prepare_transactions df 2 with
  | none => .ok []
  | some transactions =>
    if transactions.isEmpty then .ok []
    else
      match create_basket_matrix transactions with
      | none => .ok []
      | some rows =>
        match find_frequent_itemsets (some rows) min_support method with
        | none => .ok []
        | some fi =>
          if fi.isEmpty then .ok []
          else
            match rulesStage fi min_confidence min_lift with
            | .error e => .error e
            | .ok rs => .ok (rs.map addStrength)

/-- `PatternMiner.generate_association_rules` (lines 82-132): the
`try/except Exception` wrapper turns any internal failure into an empty
DataFrame. -/
def generate_association_rules (df : List Event)
    (min_support min_confidence min_lift : ℚ) (method : String := "apriori") :
    List Rule :=
  match generate_association_rulesE df min_support min_confidence min_lift method with
  | .ok rs => rs
  | .error _ => []

/-- The strength counters of `PatternMiner.get_rules_summary`
(lines 249-254): `(strong_rules, moderate_rules, weak_rules)` counted with
lower-inclusive edges `lift ≥ 2.0`, `1.2 ≤ lift < 2.0`, `lift < 1.2`. -/
def get_rules_summary_counts (rules : List Rule) : Nat × Nat × Nat :=
  (rules.countP fun r => decide (2 ≤ r.lift),
   rules.countP fun r => decide (6/5 ≤ r.lift) && decide (r.lift < 2),
   rules.countP fun r => decide (r.lift < 6/5))

/-- One recommendation entry produced by `get_book_recommendations`. -/
structure Recommendation where
  recommended_book : String
  confidence : ℚ
  lift : ℚ
  support : ℚ
deriving DecidableEq, Repr

/-- The entries appended by the loop of `get_book_recommendations`
(lines 142-154): one per (rule with the query book in its antecedents,
consequent item different from the query book), carrying that rule's own
confidence/lift/support. A frozenset iterates in unspecified order; the
consequent items are modelled in lexicographic order, which no claim below
depends on. -/
def recCandidates (book_title : String) (rules_df : List Rule) :
    List Recommendation :=
  rules_df.flatMap fun rule =>
    if book_title ∈ rule.antecedents then
      ((rule.consequents.sort (· ≤ ·)).filter fun b => !(b == book_title)).map
        fun b => { recommended_book := b, confidence := rule.confidence,
                   lift := rule.lift, support := rule.support }
    else []

/-- Comparator for `sorted(key=lambda x: (lift, confidence), reverse=True)`:
descending lexicographic on (lift, confidence), stable. -/
def recDesc (a b : Recommendation) : Bool :=
  decide (b.lift < a.lift) || (decide (a.lift = b.lift) && decide (b.confidence ≤ a.confidence))

/-- `PatternMiner.get_book_recommendations` (lines 134-163). -/
def get_book_recommendations (book_title : String) (rules_df : List Rule)
    (top_n : Nat := 5) : List Recommendation :=
  if rules_df.isEmpty then []
  else ((recCandidates book_title rules_df).mergeSort recDesc).take top_n

/-- The edge attributes stored by `create_network_visualization`
(lines 190-195). -/
structure EdgeAttr where
  weight : ℚ
  confidence : ℚ
  support : ℚ
deriving DecidableEq, Repr

/-- The directed graph built by `create_network_visualization` before
rendering: node insertion order plus the attribute table of the directed
edges (`networkx` stores edge attributes in a dict keyed by the endpoint
pair, so the table is modelled as that lookup function). -/
structure Digraph where
  nodes : List String
  edges : String × String → Option EdgeAttr

/-- `G.add_node(item)` guarded by `G.has_node` (lines 183-185). -/
def addNode (ns : List String) (x : String) : List String :=
  if x ∈ ns then ns else ns ++ [x]

/-- `G.add_edge(ant, con, ...)`: networkx overwrites the attributes of an
already-present directed edge. -/
def addEdge (es : String × String → Option EdgeAttr) (k : String × String)
    (a : EdgeAttr) : String × String → Option EdgeAttr :=
  fun q => if q = k then some a else es q

/-- The elementwise antecedent/consequent pairs one rule contributes
(lines 188-189); sets iterate in unspecified order, modelled
lexicographically — the edge table does not depend on this order. -/
def rulePairs (r : Rule) : List (String × String) :=
  (r.antecedents.sort (· ≤ ·)).flatMap fun a =>
    (r.consequents.sort (· ≤ ·)).map fun c => (a, c)

/-- Processing of one rule in the graph loop (lines 178-195). -/
def addRuleToGraph (G : Digraph) (r : Rule) : Digraph :=
  let items := (r.antecedents.sort (· ≤ ·)) ++ (r.consequents.sort (· ≤ ·))
  let attr : EdgeAttr := { weight := r.lift, confidence := r.confidence, support := r.support }
  { nodes := items.foldl addNode G.nodes,
    edges := (rulePairs r).foldl (fun es k => addEdge es k attr) G.edges }

/-- The graph-construction part of `create_network_visualization`
(lines 165-195): restrict to the first `max_rules` rules and fold them into
an initially empty digraph. -/
def create_network_graph (rules_df : List Rule) (max_rules : Nat := 20) : Digraph :=
  (rules_df.take max_rules).foldl addRuleToGraph { nodes := [], edges := fun _ => none }

/-- The Transaction set of a run viewed as an unordered collection of
item-sets (the comparison modality of the determinism property): the
multiset of per-transaction item sets produced by the Transaction
Builder, empty when the builder returns `None`. -/
def transactionMultiset (df : List Event) : Multiset (Finset String) :=
  match prepare_transactions df 2 with
  | none => 0
  | some ts => (ts.map List.toFinset : List (Finset String))

/-! Concrete instances used by the boundary and counterexample theorems. -/

/-- One user borrowing the same title twice. -/
def dupEvents : List Event := [⟨"u1", "A", "borrow"⟩, ⟨"u1", "A", "borrow"⟩]

/-- One event that is not a borrow. -/
def noBorrowEvents : List Event := [⟨"u1", "A", "return"⟩]

/-- A one-row basket matrix. -/
def oneRow : List (Finset String) := [{"A"}]

/-- Two users with two borrow events each (a dataset on which the pipeline
would otherwise proceed normally). -/
def demoEvents : List Event :=
  [⟨"u1", "A", "borrow"⟩, ⟨"u1", "B", "borrow"⟩,
   ⟨"u2", "A", "borrow"⟩, ⟨"u2", "B", "borrow"⟩]

/-- The same events as `demoEvents`, in a different order. -/
def demoEventsShuffled : List Event :=
  [⟨"u2", "B", "borrow"⟩, ⟨"u1", "B", "borrow"⟩,
   ⟨"u2", "A", "borrow"⟩, ⟨"u1", "A", "borrow"⟩]

/-- A two-row basket matrix giving itemset support exactly 1/2. -/
def twoRows : List (Finset String) := [{"A", "B"}, {"A"}]

/-- A frequent-itemset table closed under subsets (as `apriori` output is). -/
def fiDemo : List (Finset String × ℚ) :=
  [({"A", "B"}, 1/3), ({"A"}, 2/3), ({"B"}, 2/3)]

/-- Two rules with the same antecedent and the same consequent but
different confidence/lift annotations. -/
def recRuleHi : Rule := ⟨{"X"}, {"B"}, 1/5, 9/10, 3/2, none⟩

/-- See `recRuleHi`: lower confidence, higher lift. -/
def recRuleLo : Rule := ⟨{"X"}, {"B"}, 1/5, 4/5, 2, none⟩

/-- Two rules producing the same directed edge with different lifts. -/
def edgeRuleHi : Rule := ⟨{"A"}, {"B"}, 1/5, 1/2, 3, none⟩

/-- See `edgeRuleHi`: same directed pair, lower lift, later in the list. -/
def edgeRuleLo : Rule := ⟨{"A"}, {"B"}, 1/5, 1/2, 2, none⟩

/-! Theorems. -/

/-- C1 (counterexample): the Transaction Builder does not deduplicate.
A user with two borrow events for the same title yields the basket
`["A", "A"]` — the item appears twice, and the basket passes the default
minimum-count filter of 2 although it has a single distinct item. The
preprocessing variant behaves the same way. -/
theorem prepare_transactions_duplicates_kept :
    prepare_transactions dupEvents 2 = some [["A", "A"]] ∧
    prepare_transaction_data dupEvents "borrow" = some [["A", "A"]] := by
  constructor <;> decide

/-- C1 (amended): every basket the Transaction Builder returns is the list
of titles of one user's borrow events with multiplicities preserved (no
deduplication), and the minimum-count filter bounds the number of borrow
events, not distinct items; set semantics only appear downstream, when the
basket matrix collapses each basket to its item set. -/
theorem prepare_transactions_baskets (df : List Event) (min_t : Nat)
    (ts : List (List String)) (h : prepare_transactions df min_t = some ts) :
    (∀ b ∈ ts, ∃ u, b = basketOf df u ∧ min_t ≤ b.length) ∧
    create_basket_matrix ts = some (ts.map List.toFinset) := by
  simp only [prepare_transactions] at h
  split at h
  · exact absurd h (by simp)
  · split at h
    next h1 h2 => exact absurd h (by simp)
    next h1 h2 =>
      injection h with h
      subst h
      refine ⟨?_, by unfold create_basket_matrix; rw [if_neg h2]⟩
      intro b hb
      rw [List.mem_filter] at hb
      obtain ⟨hb1, hb2⟩ := hb
      rw [List.mem_map] at hb1
      obtain ⟨u, _, rfl⟩ := hb1
      exact ⟨u, rfl, of_decide_eq_true hb2⟩

/-- C1 (witness for the amended theorem at the duplicate-borrow input). -/
theorem prepare_transactions_baskets_example :
    prepare_transactions dupEvents 2 = some [["A", "A"]] ∧
    ((∀ b ∈ [["A", "A"]], ∃ u, b = basketOf dupEvents u ∧ 2 ≤ b.length) ∧
     create_basket_matrix [["A", "A"]] = some ([["A", "A"]].map List.toFinset)) :=
  ⟨by decide, prepare_transactions_baskets dupEvents 2 [["A", "A"]] (by decide)⟩

/-- C2: the `rule_strength` label and the `get_rules_summary` counters
disagree at the bin edges. A rule with lift exactly 2.0 is labelled
`Moderate` by the `pd.cut` binning (right-closed intervals) yet counted in
`strong_rules` (lower-inclusive comparison), and a rule with lift exactly
1.2 is labelled `Weak` yet counted in `moderate_rules`. -/
theorem strength_label_boundary_mismatch :
    (addStrength ⟨{"A"}, {"B"}, 1/2, 1, 2, none⟩).rule_strength =
      some Strength.moderate ∧
    get_rules_summary_counts [addStrength ⟨{"A"}, {"B"}, 1/2, 1, 2, none⟩] =
      (1, 0, 0) ∧
    (addStrength ⟨{"A"}, {"C"}, 1/2, 1, 6/5, none⟩).rule_strength =
      some Strength.weak ∧
    get_rules_summary_counts [addStrength ⟨{"A"}, {"C"}, 1/2, 1, 6/5, none⟩] =
      (0, 1, 0) := by
  refine ⟨?_, ?_, ?_, ?_⟩ <;> with_unfolding_all decide

/-- C4 (counterexample): empty results are signalled as `None` (a null),
not as empty collections: the Transaction Builder returns `None` when no
event is a borrow, and the Miner returns `None` when no itemset reaches
`min_support`. -/
theorem empty_results_are_none :
    prepare_transactions noBorrowEvents 2 = none ∧
    find_frequent_itemsets (some oneRow) 2 "apriori" = none := by
  refine ⟨by decide, ?_⟩
  with_unfolding_all decide

/-- C4 (amended): with no borrow events the Transaction Builder returns
`None`, and with a `min_support` no enumerated itemset meets the Miner
returns `None`; no exception is raised, and `generate_association_rules`
converts the `None` into an empty result. -/
theorem empty_results_amended (df : List Event) (rows : List (Finset String))
    (ms ms2 mc ml : ℚ)
    (hdf : borrowsOf df = [])
    (hrows : ∀ S ∈ subsetsList (itemUniverse rows), S.Nonempty → support rows S < ms) :
    prepare_transactions df 2 = none ∧
    find_frequent_itemsets (some rows) ms "apriori" = none ∧
    generate_association_rules df ms2 mc ml "apriori" = [] := by
  have h1 : prepare_transactions df 2 = none := by
    simp [prepare_transactions, hdf]
  refine ⟨h1, ?_, ?_⟩
  · by_cases hre : rows.isEmpty
    · simp [find_frequent_itemsets, hre]
    · by_cases hms : ms ≤ 0
      · simp [find_frequent_itemsets, hre, fpgrowth, apriori, hms]
      · have hfilter : ((subsetsList (itemUniverse rows)).filter fun S =>
            decide S.Nonempty && decide (ms ≤ support rows S)) = [] := by
          rw [List.filter_eq_nil_iff]
          intro S hS
          by_cases hne : S.Nonempty
          · simp [hne, not_le.mpr (hrows S hS hne)]
          · simp [hne]
        simp [find_frequent_itemsets, hre, fpgrowth, apriori, hms, hfilter]
  · simp [generate_association_rules, generate_association_rulesE, h1]

/-- C4 (witness for the amended theorem at concrete inputs). -/
theorem empty_results_amended_example :
    prepare_transactions noBorrowEvents 2 = none ∧
    find_frequent_itemsets (some oneRow) 2 "apriori" = none ∧
    generate_association_rules noBorrowEvents 2 (1/2) 1 "apriori" = [] :=
  empty_results_amended noBorrowEvents oneRow 2 2 (1/2) 1 (by decide)
    (by with_unfolding_all decide)

/-- C5 (counterexample): an invalid `min_support ≤ 0` is not rejected at
the Miner's boundary: the underlying library raises, the Miner swallows
the error and returns `None`, and the top-level generator returns a normal
empty result — on a dataset that otherwise produces rules. -/
theorem invalid_threshold_not_rejected :
    (apriori oneRow 0).isOk = false ∧
    find_frequent_itemsets (some oneRow) 0 "apriori" = none ∧
    generate_association_rules demoEvents 0 (1/2) 1 "apriori" = [] ∧
    generate_association_rules demoEvents (1/2) (1/2) (1/2) "apriori" ≠ [] := by
  refine ⟨?_, ?_, ?_, ?_⟩ <;> with_unfolding_all decide

/-- C5 (amended): for any `min_support ≤ 0` the library call inside the
Miner fails with a descriptive error, but the Miner catches it and returns
`None`, and `generate_association_rules` returns an empty list
indistinguishable from a genuinely empty mining result; no validation
happens at the Miner/Rule Generator boundary. -/
theorem invalid_threshold_swallowed (rows : List (Finset String))
    (df : List Event) (ms mc ml : ℚ) (h : ms ≤ 0) :
    apriori rows ms =
      .error "min_support must be a positive number within the interval (0, 1]" ∧
    find_frequent_itemsets (some rows) ms "apriori" = none ∧
    generate_association_rules df ms mc ml "apriori" = [] := by
  have ha : ∀ rows' : List (Finset String), apriori rows' ms =
      .error "min_support must be a positive number within the interval (0, 1]" := by
    intro rows'
    simp [apriori, h]
  have hf : ∀ rows' : List (Finset String),
      find_frequent_itemsets (some rows') ms "apriori" = none := by
    intro rows'
    by_cases hre : rows'.isEmpty
    · simp [find_frequent_itemsets, hre]
    · simp [find_frequent_itemsets, hre, fpgrowth, ha rows']
  refine ⟨ha rows, hf rows, ?_⟩
  cases hp : prepare_transactions df 2 with
  | none => simp [generate_association_rules, generate_association_rulesE, hp]
  | some ts =>
    by_cases hts : ts.isEmpty
    · simp [generate_association_rules, generate_association_rulesE, hp, hts]
    · have hb : create_basket_matrix ts = some (ts.map List.toFinset) := by
        simp [create_basket_matrix, hts]
      simp [generate_association_rules, generate_association_rulesE, hp, hts, hb,
        hf (ts.map List.toFinset)]

/-- C5 (witness for the amended theorem at `min_support = 0`). -/
theorem invalid_threshold_swallowed_example :
    apriori oneRow 0 =
      .error "min_support must be a positive number within the interval (0, 1]" ∧
    find_frequent_itemsets (some oneRow) 0 "apriori" = none ∧
    generate_association_rules demoEvents 0 (1/2) 1 "apriori" = [] :=
  invalid_threshold_swallowed oneRow demoEvents 0 (1/2) 1 (by decide)

/-- C10: `generate_association_rules` is total and never propagates an
internal failure: either the wrapped pipeline succeeds and its result is
returned unchanged, or it fails and the caller receives an empty list. -/
theorem generate_association_rules_total (df : List Event)
    (ms mc ml : ℚ) (method : String) :
    (∃ l, generate_association_rulesE df ms mc ml method = .ok l ∧
        generate_association_rules df ms mc ml method = l) ∨
    ((generate_association_rulesE df ms mc ml method).isOk = false ∧
        generate_association_rules df ms mc ml method = []) := by
  cases hg : generate_association_rulesE df ms mc ml method with
  | ok l => exact .inl ⟨l, rfl, by simp [generate_association_rules, hg]⟩
  | error e => exact .inr ⟨by rfl, by simp [generate_association_rules, hg]⟩

/-- The comparator of the recommendation sort, read back as an ordering
proposition. -/
theorem recDesc_eq_true_iff (a b : Recommendation) :
    recDesc a b = true ↔
      (b.lift < a.lift ∨ (a.lift = b.lift ∧ b.confidence ≤ a.confidence)) := by
  simp [recDesc]

/-- The recommendation comparator is transitive. -/
theorem recDesc_trans (a b c : Recommendation)
    (hab : recDesc a b = true) (hbc : recDesc b c = true) : recDesc a c = true := by
  rw [recDesc_eq_true_iff] at hab hbc ⊢
  rcases hab with h1 | ⟨h1, h2⟩ <;> rcases hbc with h3 | ⟨h3, h4⟩
  · exact .inl (h3.trans h1)
  · exact .inl (by rw [← h3]; exact h1)
  · exact .inl (by rw [h1]; exact h3)
  · exact .inr ⟨h1.trans h3, h4.trans h2⟩

/-- The recommendation comparator is total. -/
theorem recDesc_total (a b : Recommendation) :
    (recDesc a b || recDesc b a) = true := by
  rw [Bool.or_eq_true, recDesc_eq_true_iff, recDesc_eq_true_iff]
  rcases lt_trichotomy a.lift b.lift with h | h | h
  · exact .inr (.inl h)
  · rcases le_total b.confidence a.confidence with hc | hc
    · exact .inl (.inr ⟨h, hc⟩)
    · exact .inr (.inr ⟨h.symm, hc⟩)
  · exact .inl (.inl h)

/-- C3 (counterexample): two rules with the query item `X` as antecedent
and the same consequent `B` produce two separate entries (no deduplication
by consequent, no max-merge of the annotations), and the entry with the
higher lift but lower confidence comes first — the sort key is
(lift, confidence), not confidence. -/
theorem recommendations_not_deduplicated :
    get_book_recommendations "X" [recRuleHi, recRuleLo] 5 =
      [⟨"B", 4/5, 2, 1/5⟩, ⟨"B", 9/10, 3/2, 1/5⟩] := by
  with_unfolding_all decide

/-- C3 (amended): the Recommendation Query returns one entry per pair of a
matching rule (query item in the antecedents) and a consequent item other
than the query item, annotated with that rule's own confidence/lift/support
(duplicate consequents are possible, no best-of merging), sorted by
(lift, confidence) descending, truncated to at most `top_n` entries. -/
theorem recommendations_shape (book : String) (rules : List Rule) (n : Nat) :
    (∀ q ∈ get_book_recommendations book rules n, ∃ rule, rule ∈ rules ∧
        book ∈ rule.antecedents ∧ q.recommended_book ∈ rule.consequents ∧
        q.recommended_book ≠ book ∧ q.confidence = rule.confidence ∧
        q.lift = rule.lift ∧ q.support = rule.support) ∧
    (get_book_recommendations book rules n).length ≤ n ∧
    List.Pairwise (fun a b => recDesc a b = true)
      (get_book_recommendations book rules n) := by
  unfold get_book_recommendations
  by_cases hre : rules.isEmpty
  · simp [hre]
  · rw [if_neg (by simp [hre])]
    refine ⟨?_, List.length_take_le n _, ?_⟩
    · intro q hq
      have hq2 : q ∈ (recCandidates book rules).mergeSort recDesc :=
        List.mem_of_mem_take hq
      have hq3 : q ∈ recCandidates book rules :=
        ((List.mergeSort_perm _ _).mem_iff).mp hq2
      rw [recCandidates, List.mem_flatMap] at hq3
      obtain ⟨rule, hrule, hq4⟩ := hq3
      by_cases hbook : book ∈ rule.antecedents
      · rw [if_pos hbook, List.mem_map] at hq4
        obtain ⟨b, hb, rfl⟩ := hq4
        rw [List.mem_filter] at hb
        obtain ⟨hb1, hb2⟩ := hb
        refine ⟨rule, hrule, hbook, ?_, ?_, rfl, rfl, rfl⟩
        · exact (Finset.mem_sort _).mp hb1
        · simpa using hb2
      · rw [if_neg hbook] at hq4
        exact absurd hq4 (List.not_mem_nil q)
    · exact List.Pairwise.sublist (List.take_sublist n _)
        (List.sorted_mergeSort recDesc_trans recDesc_total (recCandidates book rules))

/-- Every subset of a finite item set occurs in the sublist enumeration of
its sorted element list. -/
theorem mem_subsetsList_of_subset {u S : Finset String} (h : S ⊆ u) :
    S ∈ subsetsList u := by
  unfold subsetsList
  refine List.mem_map.mpr ⟨(u.sort (· ≤ ·)).filter (fun a => decide (a ∈ S)), ?_, ?_⟩
  · exact List.mem_sublists.mpr (List.filter_sublist _)
  · ext a
    simp only [List.mem_toFinset, List.mem_filter, Finset.mem_sort, decide_eq_true_eq]
    exact ⟨fun ha => ha.2, fun ha => ⟨h ha, ha⟩⟩

/-- C7: the support threshold is inclusive at the boundary — an itemset
drawn from the item universe whose support equals `min_support` exactly
appears in the Frequent Itemset Collection returned by the Miner, paired
with that support. -/
theorem support_boundary_inclusive (rows : List (Finset String)) (ms : ℚ)
    (S : Finset String) (h0 : 0 < ms) (hS : S.Nonempty)
    (hU : S ⊆ itemUniverse rows) (hsup : support rows S = ms) :
    ∃ fi, find_frequent_itemsets (some rows) ms "apriori" = some fi ∧
      (S, ms) ∈ fi := by
  have hrows : rows.isEmpty = false := by
    cases hr : rows with
    | nil =>
      rw [hr] at hsup
      simp [support] at hsup
      rw [← hsup] at h0
      exact absurd h0 (lt_irrefl 0)
    | cons x xs => rfl
  have hms : ¬ ms ≤ 0 := not_le.mpr h0
  have hmem : S ∈ (subsetsList (itemUniverse rows)).filter (fun T =>
      decide T.Nonempty && decide (ms ≤ support rows T)) := by
    rw [List.mem_filter]
    exact ⟨mem_subsetsList_of_subset hU, by simp [hS, hsup]⟩
  have hpair : (S, ms) ∈ ((subsetsList (itemUniverse rows)).filter (fun T =>
      decide T.Nonempty && decide (ms ≤ support rows T))).map
        (fun T => (T, support rows T)) := by
    have h5 : (S, support rows S) ∈ ((subsetsList (itemUniverse rows)).filter (fun T =>
        decide T.Nonempty && decide (ms ≤ support rows T))).map
          (fun T => (T, support rows T)) :=
      List.mem_map_of_mem (fun T => (T, support rows T)) hmem
    rw [hsup] at h5
    exact h5
  have hL : apriori rows ms = .ok (((subsetsList (itemUniverse rows)).filter (fun T =>
      decide T.Nonempty && decide (ms ≤ support rows T))).map
        (fun T => (T, support rows T))) := by
    unfold apriori
    rw [if_neg hms]
  have hne : (((subsetsList (itemUniverse rows)).filter (fun T =>
      decide T.Nonempty && decide (ms ≤ support rows T))).map
        (fun T => (T, support rows T))).isEmpty = false := by
    cases hL' : ((subsetsList (itemUniverse rows)).filter (fun T =>
        decide T.Nonempty && decide (ms ≤ support rows T))).map
          (fun T => (T, support rows T)) with
    | nil => rw [hL'] at hpair; exact absurd hpair (List.not_mem_nil _)
    | cons x xs => rfl
  refine ⟨_, ?_, ((List.mergeSort_perm _ supportDesc).mem_iff).mpr hpair⟩
  simp [find_frequent_itemsets, hrows, fpgrowth, hL, hne]

/-- C7 (witness at a two-row matrix where the itemset meets the threshold
exactly). -/
theorem support_boundary_inclusive_example :
    support twoRows {"B"} = 1/2 ∧
    (∃ fi, find_frequent_itemsets (some twoRows) (1/2) "apriori" = some fi ∧
      ({"B"}, (1/2 : ℚ)) ∈ fi) :=
  ⟨by with_unfolding_all decide,
   support_boundary_inclusive twoRows (1/2) {"B"} (by with_unfolding_all decide)
     (by decide) (by with_unfolding_all decide) (by with_unfolding_all decide)⟩

/-- C6: the Rule Generator's filters are inclusive and complete — given the
candidate rules derived from a frequent-itemset table, the stage's output
contains a rule if and only if it is a candidate with confidence at least
`min_confidence` and lift at least `min_lift`; no qualifying rule is
dropped by the emptiness short-circuits or the final sort. -/
theorem rule_filters_inclusive (fi : List (Finset String × ℚ)) (mc ml : ℚ)
    (rulesAll : List Rule) (h : rulesFrom fi = .ok rulesAll) :
    ∃ out, rulesStage fi mc ml = .ok out ∧
      ∀ r, r ∈ out ↔ (r ∈ rulesAll ∧ mc ≤ r.confidence ∧ ml ≤ r.lift) := by
  have hlib : association_rules_lib fi mc =
      .ok (rulesAll.filter fun r => decide (mc ≤ r.confidence)) := by
    simp [association_rules_lib, h, Except.map]
  have key : ∀ r : Rule, r ∈ ((rulesAll.filter fun r => decide (mc ≤ r.confidence)).filter
      fun r => decide (ml ≤ r.lift)) ↔
      (r ∈ rulesAll ∧ mc ≤ r.confidence ∧ ml ≤ r.lift) := by
    intro r
    constructor
    · intro hr
      rw [List.mem_filter] at hr
      obtain ⟨hr1, hr3⟩ := hr
      rw [List.mem_filter] at hr1
      obtain ⟨hr1, hr2⟩ := hr1
      exact ⟨hr1, of_decide_eq_true hr2, of_decide_eq_true hr3⟩
    · rintro ⟨hr1, hr2, hr3⟩
      rw [List.mem_filter]
      refine ⟨?_, decide_eq_true hr3⟩
      rw [List.mem_filter]
      exact ⟨hr1, decide_eq_true hr2⟩
  cases h1 : (rulesAll.filter fun r => decide (mc ≤ r.confidence)).isEmpty with
  | true =>
    have hnil : (rulesAll.filter fun r => decide (mc ≤ r.confidence)) = [] :=
      List.isEmpty_iff.mp h1
    refine ⟨[], ?_, ?_⟩
    · simp [rulesStage, hlib, h1, -List.filter_filter]
    · intro r
      simp only [List.not_mem_nil, false_iff]
      rintro ⟨hr1, hr2, _⟩
      have hmem : r ∈ (rulesAll.filter fun r => decide (mc ≤ r.confidence)) := by
        rw [List.mem_filter]
        exact ⟨hr1, by simpa using hr2⟩
      rw [hnil] at hmem
      exact absurd hmem (List.not_mem_nil r)
  | false =>
    cases h2 : ((rulesAll.filter fun r => decide (mc ≤ r.confidence)).filter
        fun r => decide (ml ≤ r.lift)).isEmpty with
    | true =>
      have hnil : ((rulesAll.filter fun r => decide (mc ≤ r.confidence)).filter
          fun r => decide (ml ≤ r.lift)) = [] := List.isEmpty_iff.mp h2
      refine ⟨[], ?_, ?_⟩
      · simp [rulesStage, hlib, h1, h2, -List.filter_filter]
      · intro r
        simp only [List.not_mem_nil, false_iff]
        intro hr
        have hmem := (key r).mpr hr
        rw [hnil] at hmem
        exact absurd hmem (List.not_mem_nil r)
    | false =>
      refine ⟨((rulesAll.filter fun r => decide (mc ≤ r.confidence)).filter
          fun r => decide (ml ≤ r.lift)).mergeSort liftDesc, ?_, ?_⟩
      · simp [rulesStage, hlib, h1, h2, -List.filter_filter]
      · intro r
        rw [← key r]
        exact (List.mergeSort_perm _ liftDesc).mem_iff

/-- C6 (witness on a concrete frequent-itemset table). -/
theorem rule_filters_inclusive_example :
    ∃ out, rulesStage fiDemo (1/2) 1 = .ok out ∧
      ∀ r, r ∈ out ↔ (r ∈ ((rulesFrom fiDemo).toOption.getD []) ∧
        (1/2 : ℚ) ≤ r.confidence ∧ (1 : ℚ) ≤ r.lift) :=
  rule_filters_inclusive fiDemo (1/2) 1 ((rulesFrom fiDemo).toOption.getD [])
    (by with_unfolding_all rfl)

/-- Looking an edge up after folding a batch of same-attribute insertions:
the attribute is found exactly for the inserted keys. -/
theorem foldl_addEdge_apply (ks : List (String × String))
    (es : String × String → Option EdgeAttr) (a : EdgeAttr) (k : String × String) :
    (ks.foldl (fun es q => addEdge es q a) es) k =
      if k ∈ ks then some a else es k := by
  induction ks generalizing es with
  | nil => simp
  | cons x xs ih =>
    rw [List.foldl_cons, ih]
    by_cases hx : k ∈ xs
    · simp [hx, List.mem_cons]
    · rw [if_neg hx]
      unfold addEdge
      by_cases hk : k = x
      · simp [hk, List.mem_cons]
      · simp [hk, hx, List.mem_cons]

/-- The elementwise pairs of one rule are exactly the antecedent-item /
consequent-item combinations. -/
theorem mem_rulePairs (r : Rule) (k : String × String) :
    k ∈ rulePairs r ↔ (k.1 ∈ r.antecedents ∧ k.2 ∈ r.consequents) := by
  constructor
  · intro hk
    rw [rulePairs, List.mem_flatMap] at hk
    obtain ⟨x, hx, hk⟩ := hk
    rw [List.mem_map] at hk
    obtain ⟨y, hy, hk⟩ := hk
    subst hk
    exact ⟨(Finset.mem_sort _).mp hx, (Finset.mem_sort _).mp hy⟩
  · intro hk
    rw [rulePairs, List.mem_flatMap]
    refine ⟨k.1, (Finset.mem_sort _).mpr hk.1, ?_⟩
    rw [List.mem_map]
    exact ⟨k.2, (Finset.mem_sort _).mpr hk.2, rfl⟩

/-- Effect of one rule on the edge table: its attributes overwrite every
pair it contributes, and all other keys are untouched. -/
theorem addRuleToGraph_edges (G : Digraph) (r : Rule) (k : String × String) :
    (addRuleToGraph G r).edges k =
      if k.1 ∈ r.antecedents ∧ k.2 ∈ r.consequents then
        some ⟨r.lift, r.confidence, r.support⟩ else G.edges k := by
  have hshow : (addRuleToGraph G r).edges = (rulePairs r).foldl
      (fun es q => addEdge es q ⟨r.lift, r.confidence, r.support⟩) G.edges := rfl
  rw [hshow, foldl_addEdge_apply]
  by_cases h : k.1 ∈ r.antecedents ∧ k.2 ∈ r.consequents
  · rw [if_pos ((mem_rulePairs r k).mpr h), if_pos h]
  · rw [if_neg (fun hh => h ((mem_rulePairs r k).mp hh)), if_neg h]

/-- C8 (amended): the Relationship Graph Builder is deterministic (a pure
function of the rule list), and when several of the first `max_rules` rules
produce the same directed pair, the edge keeps the attributes of the last
contributing rule in list order — the earlier (higher-lift, given the lift
descending sort) attributes are silently overwritten. -/
theorem graph_edge_last_rule_wins (rules : List Rule) (m : Nat) (a c : String) :
    (create_network_graph rules m).edges (a, c) =
      ((rules.take m).filter (fun r => decide (a ∈ r.antecedents) &&
          decide (c ∈ r.consequents))).getLast?.map
        (fun r => (⟨r.lift, r.confidence, r.support⟩ : EdgeAttr)) := by
  have main : ∀ (L : List Rule) (G : Digraph),
      (L.foldl addRuleToGraph G).edges (a, c) =
        match (L.filter (fun r => decide (a ∈ r.antecedents) &&
            decide (c ∈ r.consequents))).getLast? with
        | some r => some ⟨r.lift, r.confidence, r.support⟩
        | none => G.edges (a, c) := by
    intro L
    induction L with
    | nil => intro G; simp
    | cons r rs ih =>
      intro G
      rw [List.foldl_cons, ih]
      by_cases hr : a ∈ r.antecedents ∧ c ∈ r.consequents
      · have hp : (decide (a ∈ r.antecedents) && decide (c ∈ r.consequents)) = true := by
          simp [hr.1, hr.2]
        simp only [List.filter_cons, hp, if_true]
        cases hrest : rs.filter (fun r => decide (a ∈ r.antecedents) &&
            decide (c ∈ r.consequents)) with
        | nil =>
          simp only [List.getLast?_nil, List.getLast?_singleton]
          rw [addRuleToGraph_edges, if_pos hr]
        | cons b bs =>
          rw [List.getLast?_cons_cons]
          cases hgl : (b :: bs).getLast? with
          | none => exact absurd (List.getLast?_eq_none_iff.mp hgl) (by simp)
          | some x => rfl
      · have hp : (decide (a ∈ r.antecedents) && decide (c ∈ r.consequents)) = false := by
          rw [Bool.eq_false_iff]
          intro hb
          exact hr (by simpa using hb)
        simp only [List.filter_cons, hp, Bool.false_eq_true, if_false]
        cases hgl : (rs.filter (fun r => decide (a ∈ r.antecedents) &&
            decide (c ∈ r.consequents))).getLast? with
        | none =>
          simp only [addRuleToGraph_edges]
          rw [if_neg hr]
        | some x => rfl
  unfold create_network_graph
  rw [main]
  cases h : ((rules.take m).filter (fun r => decide (a ∈ r.antecedents) &&
      decide (c ∈ r.consequents))).getLast? with
  | none => rfl
  | some x => rfl

/-- C8 (counterexample): two rules over the same directed pair, the
higher-lift one first (as the lift-descending rule order guarantees): the
resulting edge carries the weight 2 of the later, lower-lift rule, not the
weight 3 of the highest-lift contributor. -/
theorem graph_edge_overwritten :
    (create_network_graph [edgeRuleHi, edgeRuleLo] 20).edges ("A", "B") =
      some ⟨2, 1/2, 1/5⟩ ∧
    edgeRuleHi.lift = 3 := by
  constructor
  · with_unfolding_all decide
  · with_unfolding_all decide

/-- Permuted lists are empty together. -/
theorem isEmpty_eq_of_perm {α : Type} {x y : List α} (h : x.Perm y) :
    x.isEmpty = y.isEmpty := by
  cases x with
  | nil =>
    rw [h.symm.eq_nil]
  | cons a as =>
    cases y with
    | nil => exact absurd h.eq_nil (List.cons_ne_nil a as)
    | cons b bs => rfl

/-- Lists of equal length are empty together. -/
theorem isEmpty_eq_of_length_eq {α β : Type} {x : List α} {y : List β}
    (h : x.length = y.length) : x.isEmpty = y.isEmpty := by
  cases x with
  | nil =>
    cases y with
    | nil => rfl
    | cons b bs => simp at h
  | cons a as =>
    cases y with
    | nil => simp at h
    | cons b bs => rfl

/-- The item universe only depends on the rows up to permutation. -/
theorem itemUniverse_perm {l1 l2 : List (Finset String)} (h : l1.Perm l2) :
    itemUniverse l1 = itemUniverse l2 := by
  induction h with
  | nil => rfl
  | cons x _ ih =>
    show x ∪ itemUniverse _ = x ∪ itemUniverse _
    rw [ih]
  | swap x y l =>
    show y ∪ (x ∪ itemUniverse l) = x ∪ (y ∪ itemUniverse l)
    rw [Finset.union_left_comm]
  | trans _ _ ih1 ih2 => exact ih1.trans ih2

/-- Support only depends on the rows up to permutation. -/
theorem support_perm {l1 l2 : List (Finset String)} (h : l1.Perm l2)
    (S : Finset String) : support l1 S = support l2 S := by
  unfold support
  rw [h.countP_eq, h.length_eq]

/-- The itemset mining output is literally equal on permuted row lists
(the enumeration is driven by the — identical — item universe, and each
candidate's support is a permutation invariant). -/
theorem apriori_perm {l1 l2 : List (Finset String)} (h : l1.Perm l2)
    (ms : ℚ) : apriori l1 ms = apriori l2 ms := by
  unfold apriori
  have hs : ∀ S, support l1 S = support l2 S := support_perm h
  rw [itemUniverse_perm h]
  simp only [hs]

/-- The Miner returns literally equal output on permuted row lists. -/
theorem find_frequent_perm {l1 l2 : List (Finset String)} (h : l1.Perm l2)
    (ms : ℚ) (method : String) :
    find_frequent_itemsets (some l1) ms method =
      find_frequent_itemsets (some l2) ms method := by
  simp only [find_frequent_itemsets]
  rw [isEmpty_eq_of_perm h, apriori_perm h ms,
    show fpgrowth l1 ms = fpgrowth l2 ms from apriori_perm h ms]

/-- C9: determinism under reordering. For permuted Event lists the
Transaction Builder produces the same Transaction set as an unordered
collection of item-sets, and the whole mining pipeline — frequent itemsets
and generated rules — returns identical results for any thresholds. -/
theorem pipeline_perm_invariant (l1 l2 : List Event) (h : l1.Perm l2) :
    transactionMultiset l1 = transactionMultiset l2 ∧
    ∀ ms mc ml : ℚ, ∀ method : String,
      generate_association_rulesE l1 ms mc ml method =
        generate_association_rulesE l2 ms mc ml method := by
  have hb : (borrowsOf l1).Perm (borrowsOf l2) := h.filter _
  have husers : (((borrowsOf l1).map (·.user_id)).dedup).Perm
      (((borrowsOf l2).map (·.user_id)).dedup) := (hb.map _).dedup
  have hbasket : ∀ u, (basketOf l1 u).Perm (basketOf l2 u) :=
    fun u => (hb.filter _).map _
  have hblen : ∀ u, (basketOf l1 u).length = (basketOf l2 u).length :=
    fun u => (hbasket u).length_eq
  have hbfin : ∀ u, (basketOf l1 u).toFinset = (basketOf l2 u).toFinset :=
    fun u => List.toFinset_eq_of_perm _ _ (hbasket u)
  have hK1 : ((((borrowsOf l1).map (·.user_id)).dedup.map (basketOf l1)).filter
        fun b => decide (2 ≤ b.length)) =
      ((((borrowsOf l1).map (·.user_id)).dedup.filter
        fun u => decide (2 ≤ (basketOf l1 u).length)).map (basketOf l1)) :=
    List.filter_map _ _
  have hK2 : ((((borrowsOf l2).map (·.user_id)).dedup.map (basketOf l2)).filter
        fun b => decide (2 ≤ b.length)) =
      ((((borrowsOf l2).map (·.user_id)).dedup.filter
        fun u => decide (2 ≤ (basketOf l2 u).length)).map (basketOf l2)) :=
    List.filter_map _ _
  have himg : (((((borrowsOf l1).map (·.user_id)).dedup.map (basketOf l1)).filter
        fun b => decide (2 ≤ b.length)).map List.toFinset).Perm
      (((((borrowsOf l2).map (·.user_id)).dedup.map (basketOf l2)).filter
        fun b => decide (2 ≤ b.length)).map List.toFinset) := by
    rw [hK1, hK2, List.map_map, List.map_map]
    have hq : ((((borrowsOf l1).map (·.user_id)).dedup).filter
          fun u => decide (2 ≤ (basketOf l1 u).length)) =
        ((((borrowsOf l1).map (·.user_id)).dedup).filter
          fun u => decide (2 ≤ (basketOf l2 u).length)) :=
      List.filter_congr (fun u _ => by rw [hblen u])
    have hf : ((((borrowsOf l1).map (·.user_id)).dedup).filter
          fun u => decide (2 ≤ (basketOf l2 u).length)).map
            (List.toFinset ∘ basketOf l1) =
        ((((borrowsOf l1).map (·.user_id)).dedup).filter
          fun u => decide (2 ≤ (basketOf l2 u).length)).map
            (List.toFinset ∘ basketOf l2) :=
      List.map_congr_left (fun u _ => by
        simp only [Function.comp_apply]
        exact hbfin u)
    rw [hq, hf]
    exact (husers.filter _).map _
  have hKe : ((((borrowsOf l1).map (·.user_id)).dedup.map (basketOf l1)).filter
        fun b => decide (2 ≤ b.length)).isEmpty =
      ((((borrowsOf l2).map (·.user_id)).dedup.map (basketOf l2)).filter
        fun b => decide (2 ≤ b.length)).isEmpty := by
    rw [hK1, hK2]
    apply isEmpty_eq_of_length_eq
    rw [List.length_map, List.length_map,
      List.filter_congr (fun u (_ : u ∈ ((borrowsOf l1).map (·.user_id)).dedup) => by
        rw [hblen u])]
    exact (husers.filter _).length_eq
  have hbe : (borrowsOf l1).isEmpty = (borrowsOf l2).isEmpty := isEmpty_eq_of_perm hb
  have hp1form : prepare_transactions l1 2 =
      (if (borrowsOf l1).isEmpty then none
       else if ((((borrowsOf l1).map (·.user_id)).dedup.map (basketOf l1)).filter
           fun b => decide (2 ≤ b.length)).isEmpty then none
       else some ((((borrowsOf l1).map (·.user_id)).dedup.map (basketOf l1)).filter
           fun b => decide (2 ≤ b.length))) := rfl
  have hp2form : prepare_transactions l2 2 =
      (if (borrowsOf l2).isEmpty then none
       else if ((((borrowsOf l2).map (·.user_id)).dedup.map (basketOf l2)).filter
           fun b => decide (2 ≤ b.length)).isEmpty then none
       else some ((((borrowsOf l2).map (·.user_id)).dedup.map (basketOf l2)).filter
           fun b => decide (2 ≤ b.length))) := rfl
  by_cases he : (borrowsOf l1).isEmpty = true
  · have he2 : (borrowsOf l2).isEmpty = true := by rw [← hbe]; exact he
    have hp1 : prepare_transactions l1 2 = none := by rw [hp1form, if_pos he]
    have hp2 : prepare_transactions l2 2 = none := by rw [hp2form, if_pos he2]
    refine ⟨?_, ?_⟩
    · unfold transactionMultiset
      rw [hp1, hp2]
    · intro ms mc ml method
      unfold generate_association_rulesE
      rw [hp1, hp2]
  · have he2 : ¬ (borrowsOf l2).isEmpty = true := by rw [← hbe]; exact he
    by_cases hke : ((((borrowsOf l1).map (·.user_id)).dedup.map (basketOf l1)).filter
        fun b => decide (2 ≤ b.length)).isEmpty = true
    · have hke2 : ((((borrowsOf l2).map (·.user_id)).dedup.map (basketOf l2)).filter
          fun b => decide (2 ≤ b.length)).isEmpty = true := by
        rw [← hKe]; exact hke
      have hp1 : prepare_transactions l1 2 = none := by
        rw [hp1form, if_neg he, if_pos hke]
      have hp2 : prepare_transactions l2 2 = none := by
        rw [hp2form, if_neg he2, if_pos hke2]
      refine ⟨?_, ?_⟩
      · unfold transactionMultiset
        rw [hp1, hp2]
      · intro ms mc ml method
        unfold generate_association_rulesE
        rw [hp1, hp2]
    · have hke2 : ¬ ((((borrowsOf l2).map (·.user_id)).dedup.map (basketOf l2)).filter
          fun b => decide (2 ≤ b.length)).isEmpty = true := by
        rw [← hKe]; exact hke
      have hp1 : prepare_transactions l1 2 =
          some ((((borrowsOf l1).map (·.user_id)).dedup.map (basketOf l1)).filter
            fun b => decide (2 ≤ b.length)) := by
        rw [hp1form, if_neg he, if_neg hke]
      have hp2 : prepare_transactions l2 2 =
          some ((((borrowsOf l2).map (·.user_id)).dedup.map (basketOf l2)).filter
            fun b => decide (2 ≤ b.length)) := by
        rw [hp2form, if_neg he2, if_neg hke2]
      refine ⟨?_, ?_⟩
      · unfold transactionMultiset
        rw [hp1, hp2]
        exact Multiset.coe_eq_coe.mpr himg
      · intro ms mc ml method
        have hc1 : create_basket_matrix ((((borrowsOf l1).map (·.user_id)).dedup.map
              (basketOf l1)).filter fun b => decide (2 ≤ b.length)) =
            some (((((borrowsOf l1).map (·.user_id)).dedup.map
              (basketOf l1)).filter fun b => decide (2 ≤ b.length)).map List.toFinset) := by
          unfold create_basket_matrix
          rw [if_neg hke]
        have hc2 : create_basket_matrix ((((borrowsOf l2).map (·.user_id)).dedup.map
              (basketOf l2)).filter fun b => decide (2 ≤ b.length)) =
            some (((((borrowsOf l2).map (·.user_id)).dedup.map
              (basketOf l2)).filter fun b => decide (2 ≤ b.length)).map List.toFinset) := by
          unfold create_basket_matrix
          rw [if_neg hke2]
        simp only [generate_association_rulesE, hp1, hp2]
        rw [if_neg hke, if_neg hke2]
        simp only [hc1, hc2]
        rw [find_frequent_perm himg ms method]

/-- C9 (witness at a concrete permuted pair of event lists). -/
theorem pipeline_perm_invariant_example :
    List.Perm demoEvents demoEventsShuffled ∧
    transactionMultiset demoEvents = transactionMultiset demoEventsShuffled ∧
    generate_association_rulesE demoEvents (1/2) (1/2) 1 "apriori" =
      generate_association_rulesE demoEventsShuffled (1/2) (1/2) 1 "apriori" :=
  ⟨by decide,
   (pipeline_perm_invariant demoEvents demoEventsShuffled (by decide)).1,
   (pipeline_perm_invariant demoEvents demoEventsShuffled (by decide)).2
     (1/2) (1/2) 1 "apriori"⟩

end DLA
